import Mathlib

/-!
Shallow embedding of `imohash` (src/imohash.go), a sampled file-hashing engine,
and proofs of the specified properties.

Modelling conventions:
* A byte is modelled as `Nat` (values read from a source; no arithmetic is
  performed on byte values, so no wrap-around is involved).
* The murmur3 128-bit mixing primitive is an external dependency that the spec
  treats as an opaque deterministic function of the byte stream written since
  the last reset.  All definitions are therefore parametrised by an abstract
  mixer `M : List Nat → List Nat`; where a property needs the digest to have
  16 bytes, the hypothesis `∀ l, (M l).length = 16` is carried explicitly.
  The murmur hasher state is represented by the list of `Write` calls made
  since the last reset (`writes`); taking a digest applies `M` to their
  concatenation, which encodes the stream-equivalence of the primitive
  (three sequential writes behave as one write of the concatenation).
* Go's `io.SectionReader` (with base 0, as at both call sites) is modelled
  with its exact `Read`/`Seek` semantics: `Read` fills at most
  `min (len buf) (limit - off)` bytes starting at the current offset and
  leaves the rest of the buffer untouched; a `Seek` relative to the end that
  would move before the base fails and leaves the offset unchanged.  The
  backing `ReaderAt` returns the bytes it could read together with an error
  flag; `hashCore` discards the error exactly as the Go code discards the
  results of `f.Read`.
* `binary.PutUvarint` takes a `uint64`; its loop strips seven bits per
  iteration, so ten iterations always suffice for any `uint64`.  `uvarint`
  is implemented with that iteration bound so that it is structurally
  recursive and computable by `decide`/`rfl`.
* Go `int` fields (`sampleSize`, `sampleThreshold`) are modelled as `Int`
  (the `sampleSize < 1` comparison includes negative values);
  sizes are non-negative (`Nat`).  File open/stat failures are modelled by
  `OpenResult`; the `([Size]byte, error)` return of `SumFile` is modelled as
  `Except HashErr (List Nat)` (error surfaced, no digest).
-/

namespace Imohash

/-- `const Size = 16`. -/
def Size : Nat := 16

/-- `const SampleThreshhold = 128 * 1024` (Go `int`, sic: the typo is the source's). -/
def SampleThreshhold : Int := 128 * 1024

/-- `const SampleSize = 16 * 1024` (Go `int`). -/
def SampleSize : Int := 16 * 1024

/-- An `io.ReaderAt`: given an offset and a requested length, returns the bytes
actually read (at most the requested length) and an error flag.  An in-memory
`bytes.Reader` never errors mid-range; a broken file may return no bytes and
an error. -/
structure ReaderAt where
  readAt : Nat → Nat → List Nat × Bool

/-- An `io.SectionReader` with base 0 (both call sites use
`io.NewSectionReader(r, 0, size)`): a backing reader, the section limit, and
the current read offset. -/
structure SectionReader where
  r : ReaderAt
  limit : Nat
  off : Nat

/-- `(*SectionReader).Size() = limit - base`, with base 0. -/
def SectionReader.size (s : SectionReader) : Nat := s.limit

/-- `(*SectionReader).Read(buf)`: at or past the limit it returns `(0, EOF)`
and leaves the buffer untouched; otherwise it asks the backing reader for
`min (len buf) (limit - off)` bytes at the current offset, copies the bytes
obtained over the front of the buffer (the tail of the buffer keeps its
previous contents), and advances the offset by the number of bytes read.
The error flag is dropped here because every caller in the source
(`hashCore`) discards `Read`'s results. -/
def SectionReader.readInto (s : SectionReader) (buf : List Nat) :
    SectionReader × List Nat :=
  if s.limit ≤ s.off then (s, buf)
  else
    let m := min buf.length (s.limit - s.off)
    let bs := (s.r.readAt s.off m).1
    (⟨s.r, s.limit, s.off + bs.length⟩, bs ++ buf.drop bs.length)

/-- `f.Seek(to, io.SeekStart)` with base 0: always succeeds (the new offset is
a `Nat`, hence not below the base). -/
def SectionReader.seekStart (s : SectionReader) (pos : Nat) : SectionReader :=
  ⟨s.r, s.limit, pos⟩

/-- `f.Seek(delta, io.SeekEnd)` with base 0: the target offset is
`limit + delta`; if that is negative the seek fails with `errOffset` and the
offset is left unchanged (the source discards the error). -/
def SectionReader.seekEnd (s : SectionReader) (delta : Int) : SectionReader :=
  if (s.limit : Int) + delta < 0 then s
  else ⟨s.r, s.limit, ((s.limit : Int) + delta).toNat⟩

/-- `bytes.NewReader(data)` as a `ReaderAt`: returns the bytes of `data` in
`[off, off+len)` clipped to the data, with an EOF error flag when fewer bytes
than requested exist. -/
def bytesReaderAt (data : List Nat) : ReaderAt :=
  ⟨fun off len => ((data.drop off).take len, data.length < off + len)⟩

/-- `io.NewSectionReader(bytes.NewReader(data), 0, len(data))`. -/
def mkSectionReader (data : List Nat) : SectionReader :=
  ⟨bytesReaderAt data, data.length, 0⟩

/-- The loop of `binary.PutUvarint`: emit seven bits plus a continuation bit
while `x ≥ 0x80`.  The first argument bounds the number of iterations; ten
iterations cover every `uint64` (the only values the source ever encodes). -/
def uvarintFuel : Nat → Nat → List Nat
  | 0, x => [x]
  | fuel + 1, x => if x < 128 then [x] else (x % 128 + 128) :: uvarintFuel fuel (x / 128)

/-- The byte sequence `binary.PutUvarint` writes for `x` (valid for all
`x < 2 ^ 70`, in particular for every `uint64`). -/
def uvarint (x : Nat) : List Nat := uvarintFuel 10 x

/-- `binary.PutUvarint(buf, x)`: overwrite the leading bytes of `buf` with the
varint encoding of `x`, leaving the rest of `buf` untouched. -/
def putUvarintInto (buf : List Nat) (x : Nat) : List Nat :=
  uvarint x ++ buf.drop (uvarint x).length

/-- `var result [Size]byte; copy(result[:], hash)`: the fixed 16-byte result
array after copying `hash` into it (untouched positions stay zero). -/
def copyToResult (hash : List Nat) : List Nat :=
  hash.take Size ++ List.replicate (Size - hash.length) 0

/-- The engine (`type ImoHash struct`).  `writes` models the murmur hasher:
the list of byte slices written to it since its last reset. -/
structure ImoHash where
  writes : List (List Nat)
  sampleSize : Int
  sampleThreshold : Int
  bytesAdded : Nat

/-- `NewCustom(sampleSize, sampleThreshold)`: fresh murmur hasher, the given
parameters, `bytesAdded` zero. -/
def NewCustom (sampleSize sampleThreshold : Int) : ImoHash :=
  { writes := [], sampleSize := sampleSize, sampleThreshold := sampleThreshold,
    bytesAdded := 0 }

/-- `New()`. -/
def New : ImoHash := NewCustom SampleSize SampleThreshhold

/-- `(*ImoHash).hashCore(f)` for an abstract mixer `M`.  Mirrors
src/imohash.go lines 114-141: reset the hasher; if
`f.Size() < sampleThreshold || sampleSize < 1` read the whole section into a
fresh buffer and write it once, else read three samples (reusing one buffer
of `sampleSize` bytes, with the seeks of the source) and write each; then take
the digest, overwrite its leading bytes with the varint of `f.Size()`, and
copy into the 16-byte result.  All `Read`/`Seek` return values are discarded,
as in the source.  Returns the mutated engine together with the result. -/
def hashCore (M : List Nat → List Nat) (imo : ImoHash) (f : SectionReader) :
    ImoHash × List Nat :=
  let imo0 := { imo with writes := [] }
  let imoF :=
    if (f.size : Int) < imo.sampleThreshold ∨ imo.sampleSize < 1 then
      let fb := f.readInto (List.replicate f.size 0)
      { imo0 with writes := imo0.writes ++ [fb.2] }
    else
      let fb1 := f.readInto (List.replicate imo.sampleSize.toNat 0)
      let imo1 := { imo0 with writes := imo0.writes ++ [fb1.2] }
      let f1 := fb1.1.seekStart (f.size / 2)
      let fb2 := f1.readInto fb1.2
      let imo2 := { imo1 with writes := imo1.writes ++ [fb2.2] }
      let f2 := fb2.1.seekEnd (-imo.sampleSize)
      let fb3 := f2.readInto fb2.2
      { imo2 with writes := imo2.writes ++ [fb3.2] }
  (imoF, copyToResult (putUvarintInto (M imoF.writes.flatten) f.size))

/-- `Sum128(data)`: hash a byte slice with default parameters. -/
def Sum128 (M : List Nat → List Nat) (data : List Nat) : List Nat :=
  (hashCore M New (mkSectionReader data)).2

/-- The possible outcomes of `os.Open` plus `f.Stat()` in `SumFile`: the open
fails, the stat fails, or both succeed yielding a backing reader and a size. -/
inductive OpenResult where
  | openErr : OpenResult
  | statErr : OpenResult
  | opened : ReaderAt → Nat → OpenResult

/-- Errors surfaced by `SumFile` (a non-nil Go `error`). -/
inductive HashErr where
  | openFailed : HashErr
  | statFailed : HashErr
deriving DecidableEq

/-- `(*ImoHash).SumFile(filename)`: open and stat failures are returned
immediately (with the zero array, modelled as `Except.error`: no digest);
otherwise hash the section `[0, size)` of the file and return the digest with
a nil error.  Returns the (possibly mutated) engine as well. -/
def ImoHash.SumFile (M : List Nat → List Nat) (imo : ImoHash) (o : OpenResult) :
    ImoHash × Except HashErr (List Nat) :=
  match o with
  | .openErr => (imo, .error .openFailed)
  | .statErr => (imo, .error .statFailed)
  | .opened r size =>
      let p := hashCore M imo ⟨r, size, 0⟩
      (p.1, .ok p.2)

/-- Package-level `SumFile(filename)`: a fresh default engine, then the method. -/
def SumFile (M : List Nat → List Nat) (o : OpenResult) : Except HashErr (List Nat) :=
  (ImoHash.SumFile M New o).2

/-- `(*ImoHash).Sum(data)`: take the murmur digest of everything written since
the last reset (murmur's `Sum` does not consume state, so no new engine is
returned: the receiver is left untouched), overwrite its leading bytes with
the varint of `bytesAdded`, and append the result to `data`. -/
def ImoHash.Sum (M : List Nat → List Nat) (imo : ImoHash) (data : List Nat) :
    List Nat :=
  data ++ putUvarintInto (M imo.writes.flatten) imo.bytesAdded

/-- `(*ImoHash).Write(data)`: write `data` to the murmur hasher, add its
length to `bytesAdded`, and return `(len(data), nil)` — it never fails, so
only the accepted count is returned beside the new engine. -/
def ImoHash.Write (imo : ImoHash) (data : List Nat) : ImoHash × Nat :=
  ({ imo with writes := imo.writes ++ [data],
              bytesAdded := imo.bytesAdded + data.length },
   data.length)

/-- `(*ImoHash).Reset()`. -/
def ImoHash.Reset (imo : ImoHash) : ImoHash :=
  { imo with bytesAdded := 0, writes := [] }

/-- `(*ImoHash).BlockSize() = 1`. -/
def ImoHash.BlockSize (_ : ImoHash) : Nat := 1

/-- `(*ImoHash).Size() = Size`. -/
def ImoHash.Size (_ : ImoHash) : Nat := Imohash.Size

/-- A concrete mixer used to witness the parametrised theorems: any function
with 16-byte digests will do. -/
def M0 : List Nat → List Nat := fun _ => List.replicate 16 0

/-- A backing reader whose every read fails, returning no bytes — a device
with a hard I/O error. -/
def failingReaderAt : ReaderAt := ⟨fun _ _ => ([], true)⟩

/-- Modelled from the spec: the “Identifier computed via unconditional
whole-content mixing” that §8 compares against — mix the entire buffer into
the primitive as one write, take the 16-byte digest, overwrite its leading
bytes with the varint encoding of the buffer's length. -/
def specWholeMixIdentifier (M : List Nat → List Nat) (data : List Nat) : List Nat :=
  copyToResult (putUvarintInto (M data) data.length)

/-! Helper lemmas about the embedded operations. -/

@[simp]
theorem mkSectionReader_size (data : List Nat) :
    (mkSectionReader data).size = data.length := rfl

theorem uvarintFuel_length_le (n x : Nat) : (uvarintFuel n x).length ≤ n + 1 := by
  induction n generalizing x with
  | zero => simp [uvarintFuel]
  | succ n ih =>
      unfold uvarintFuel
      split
      · simp
      · simpa using Nat.succ_le_succ (ih (x / 128))

theorem uvarint_length_le (x : Nat) : (uvarint x).length ≤ 11 :=
  uvarintFuel_length_le 10 x

theorem putUvarintInto_length (buf : List Nat) (x : Nat)
    (h : (uvarint x).length ≤ buf.length) :
    (putUvarintInto buf x).length = buf.length := by
  simp only [putUvarintInto, List.length_append, List.length_drop]
  omega

theorem copyToResult_of_length (hash : List Nat) (h : hash.length = 16) :
    copyToResult hash = hash := by
  simp [copyToResult, Size, h, List.take_of_length_le (Nat.le_of_eq h)]

theorem hashCore_snd (M : List Nat → List Nat) (imo : ImoHash) (f : SectionReader) :
    (hashCore M imo f).2 =
      copyToResult (putUvarintInto (M (hashCore M imo f).1.writes.flatten) f.size) :=
  rfl

theorem hashCore_whole (M : List Nat → List Nat) (imo : ImoHash) (f : SectionReader)
    (h : (f.size : Int) < imo.sampleThreshold ∨ imo.sampleSize < 1) :
    hashCore M imo f =
      ({ imo with writes := [(f.readInto (List.replicate f.size 0)).2] },
       copyToResult (putUvarintInto (M (f.readInto (List.replicate f.size 0)).2) f.size)) := by
  simp [hashCore, if_pos h]

theorem hashCore_sample (M : List Nat → List Nat) (imo : ImoHash) (f : SectionReader)
    (h : ¬((f.size : Int) < imo.sampleThreshold ∨ imo.sampleSize < 1)) :
    hashCore M imo f =
      (({ imo with writes :=
            [(f.readInto (List.replicate imo.sampleSize.toNat 0)).2,
             (((f.readInto (List.replicate imo.sampleSize.toNat 0)).1.seekStart
                 (f.size / 2)).readInto
               (f.readInto (List.replicate imo.sampleSize.toNat 0)).2).2,
             (((((f.readInto (List.replicate imo.sampleSize.toNat 0)).1.seekStart
                    (f.size / 2)).readInto
                  (f.readInto (List.replicate imo.sampleSize.toNat 0)).2).1.seekEnd
                 (-imo.sampleSize)).readInto
               (((f.readInto (List.replicate imo.sampleSize.toNat 0)).1.seekStart
                   (f.size / 2)).readInto
                 (f.readInto (List.replicate imo.sampleSize.toNat 0)).2).2).2] } : ImoHash),
       copyToResult (putUvarintInto
         (M ((f.readInto (List.replicate imo.sampleSize.toNat 0)).2 ++
             ((((f.readInto (List.replicate imo.sampleSize.toNat 0)).1.seekStart
                  (f.size / 2)).readInto
                (f.readInto (List.replicate imo.sampleSize.toNat 0)).2).2 ++
              (((((f.readInto (List.replicate imo.sampleSize.toNat 0)).1.seekStart
                     (f.size / 2)).readInto
                   (f.readInto (List.replicate imo.sampleSize.toNat 0)).2).1.seekEnd
                  (-imo.sampleSize)).readInto
                (((f.readInto (List.replicate imo.sampleSize.toNat 0)).1.seekStart
                    (f.size / 2)).readInto
                  (f.readInto (List.replicate imo.sampleSize.toNat 0)).2).2).2)))
         f.size)) := by
  simp [hashCore, if_neg h]

theorem readInto_inbounds (data : List Nat) (o : Nat) (buf : List Nat) (k : Nat)
    (hk : buf.length = k) (h1 : 1 ≤ k) (h2 : o + k ≤ data.length) :
    SectionReader.readInto ⟨bytesReaderAt data, data.length, o⟩ buf =
      (⟨bytesReaderAt data, data.length, o + k⟩, (data.drop o).take k) := by
  subst hk
  have ho : ¬(data.length ≤ o) := by omega
  have hmin : min buf.length (data.length - o) = buf.length := by omega
  have hbs : ((data.drop o).take buf.length).length = buf.length := by
    simp only [List.length_take, List.length_drop]
    omega
  unfold SectionReader.readInto bytesReaderAt
  rw [if_neg ho]
  dsimp only
  rw [hmin, hbs, List.drop_length, List.append_nil]

theorem readInto_whole (data : List Nat) :
    SectionReader.readInto ⟨bytesReaderAt data, data.length, 0⟩
        (List.replicate data.length 0) =
      (⟨bytesReaderAt data, data.length, data.length⟩, data) := by
  rcases Nat.eq_zero_or_pos data.length with h | h
  · have hnil : data = [] := List.length_eq_zero.mp h
    subst hnil
    rfl
  · rw [readInto_inbounds data 0 (List.replicate data.length 0) data.length
        (List.length_replicate _ _) h (by omega)]
    simp [List.take_length]

theorem hashCore_whole_mk (M : List Nat → List Nat) (imo : ImoHash) (data : List Nat)
    (h : (data.length : Int) < imo.sampleThreshold ∨ imo.sampleSize < 1) :
    hashCore M imo (mkSectionReader data) =
      ({ imo with writes := [data] },
       copyToResult (putUvarintInto (M data) data.length)) := by
  rw [hashCore_whole M imo (mkSectionReader data) (by simpa using h)]
  simp only [mkSectionReader, SectionReader.size, readInto_whole]

theorem hashCore_sample_mk (M : List Nat → List Nat) (imo : ImoHash) (data : List Nat)
    (hth : imo.sampleThreshold ≤ (data.length : Int))
    (hss : 1 ≤ imo.sampleSize)
    (hfit : data.length / 2 + imo.sampleSize.toNat ≤ data.length) :
    hashCore M imo (mkSectionReader data) =
      ({ imo with writes :=
          [data.take imo.sampleSize.toNat,
           (data.drop (data.length / 2)).take imo.sampleSize.toNat,
           (data.drop (data.length - imo.sampleSize.toNat)).take imo.sampleSize.toNat] },
       copyToResult (putUvarintInto
         (M (data.take imo.sampleSize.toNat ++
             ((data.drop (data.length / 2)).take imo.sampleSize.toNat ++
              (data.drop (data.length - imo.sampleSize.toNat)).take imo.sampleSize.toNat)))
         data.length)) := by
  have hss1 : 1 ≤ imo.sampleSize.toNat := by omega
  have hssS : imo.sampleSize.toNat ≤ data.length := by omega
  have hcond : ¬(((mkSectionReader data).size : Int) < imo.sampleThreshold ∨
      imo.sampleSize < 1) := by
    simp only [mkSectionReader_size]
    omega
  rw [hashCore_sample M imo (mkSectionReader data) hcond]
  simp only [mkSectionReader_size, mkSectionReader]
  rw [readInto_inbounds data 0 (List.replicate imo.sampleSize.toNat 0)
      imo.sampleSize.toNat (List.length_replicate _ _) hss1 (by omega)]
  simp only [Nat.zero_add, List.drop_zero, SectionReader.seekStart, SectionReader.size]
  rw [readInto_inbounds data (data.length / 2) (data.take imo.sampleSize.toNat)
      imo.sampleSize.toNat (by rw [List.length_take]; omega) hss1 hfit]
  simp only [SectionReader.seekEnd]
  rw [if_neg (by omega : ¬((data.length : Int) + -imo.sampleSize < 0))]
  rw [(by omega : ((data.length : Int) + -imo.sampleSize).toNat =
      data.length - imo.sampleSize.toNat)]
  rw [readInto_inbounds data (data.length - imo.sampleSize.toNat)
      ((data.drop (data.length / 2)).take imo.sampleSize.toNat)
      imo.sampleSize.toNat
      (by rw [List.length_take, List.length_drop]; omega) hss1 (by omega)]

theorem hashCore_congr (M : List Nat → List Nat) (f : SectionReader)
    (imo imo' : ImoHash) (hs : imo.sampleSize = imo'.sampleSize)
    (ht : imo.sampleThreshold = imo'.sampleThreshold) :
    (hashCore M imo f).1.writes = (hashCore M imo' f).1.writes ∧
    (hashCore M imo f).2 = (hashCore M imo' f).2 := by
  obtain ⟨w, s, t, b⟩ := imo
  obtain ⟨w', s', t', b'⟩ := imo'
  simp only at hs ht
  subst hs; subst ht
  by_cases hc : (f.size : Int) < t ∨ s < 1
  · rw [hashCore_whole M _ f hc, hashCore_whole M _ f hc]
    exact ⟨rfl, rfl⟩
  · rw [hashCore_sample M _ f hc, hashCore_sample M _ f hc]
    exact ⟨rfl, rfl⟩

theorem hashCore_config_frame (M : List Nat → List Nat) (imo : ImoHash)
    (f : SectionReader) :
    (hashCore M imo f).1.bytesAdded = imo.bytesAdded ∧
    (hashCore M imo f).1.sampleSize = imo.sampleSize ∧
    (hashCore M imo f).1.sampleThreshold = imo.sampleThreshold := by
  by_cases hc : (f.size : Int) < imo.sampleThreshold ∨ imo.sampleSize < 1
  · rw [hashCore_whole M imo f hc]
    exact ⟨rfl, rfl, rfl⟩
  · rw [hashCore_sample M imo f hc]
    exact ⟨rfl, rfl, rfl⟩

/-! The claims. -/

/-- C1 (amended): failures to open or stat the file are surfaced immediately
as `SumFile`'s result with no digest; but an I/O failure while *reading* is
not surfaced — `hashCore` discards the results of every `f.Read`, so whenever
open and stat succeed the call returns a digest (computed from whatever the
read buffers hold) with a nil error, never an error. -/
theorem sumFile_open_stat_errors (M : List Nat → List Nat) (imo : ImoHash)
    (o : OpenResult) :
    (o = .openErr → ImoHash.SumFile M imo o = (imo, .error .openFailed)) ∧
    (o = .statErr → ImoHash.SumFile M imo o = (imo, .error .statFailed)) ∧
    (∀ (r : ReaderAt) (s : Nat), o = .opened r s →
      (ImoHash.SumFile M imo o).2 = .ok ((hashCore M imo ⟨r, s, 0⟩).2)) :=
  ⟨fun h => by rw [h]; rfl, fun h => by rw [h]; rfl,
   fun r s h => by rw [h]; rfl⟩

/-- Witness for sumFile_open_stat_errors at concrete outcomes, including a
file whose reads all fail (the digest is still produced). -/
theorem sumFile_open_stat_errors_witness :
    ImoHash.SumFile M0 New .openErr = (New, .error .openFailed) ∧
    ImoHash.SumFile M0 New .statErr = (New, .error .statFailed) ∧
    (ImoHash.SumFile M0 New (.opened failingReaderAt 5)).2 =
      .ok ((hashCore M0 New ⟨failingReaderAt, 5, 0⟩).2) :=
  ⟨(sumFile_open_stat_errors M0 New .openErr).1 rfl,
   (sumFile_open_stat_errors M0 New .statErr).2.1 rfl,
   (sumFile_open_stat_errors M0 New (.opened failingReaderAt 5)).2.2
     failingReaderAt 5 rfl⟩

/-- C1 counterexample: hashing a 5-byte file whose every read fails with an
I/O error.  The claim says the failure is surfaced as the call's result and
no digest is returned; in fact `SumFile` returns a nil error together with a
digest — here the digest of five zero bytes (the untouched buffer), with the
size 5 overwritten on its front. -/
theorem read_failure_not_surfaced :
    (ImoHash.SumFile M0 New (.opened failingReaderAt 5)).2 =
      Except.ok (5 :: List.replicate 15 0) := rfl

/-- C3: every one-shot computation returns exactly 16 bytes: the varint
encoding of the source's total size (an `int64`, hence below `2 ^ 63`, cast
to `uint64`) written over the leading bytes of the mixing primitive's raw
16-byte digest, the trailing bytes being the raw digest's bytes at the same
positions, untouched. -/
theorem identifier_layout (M : List Nat → List Nat) (hM : ∀ l, (M l).length = 16)
    (imo : ImoHash) (f : SectionReader) (hsz : f.size < 2 ^ 63) :
    ((hashCore M imo f).2).length = 16 ∧
    (hashCore M imo f).2 =
      uvarint f.size ++
        (M ((hashCore M imo f).1.writes.flatten)).drop (uvarint f.size).length := by
  have hraw := hM ((hashCore M imo f).1.writes.flatten)
  have hle : (uvarint f.size).length ≤
      (M ((hashCore M imo f).1.writes.flatten)).length := by
    rw [hraw]
    have := uvarint_length_le f.size
    omega
  have hput := putUvarintInto_length _ f.size hle
  rw [hraw] at hput
  rw [hashCore_snd, copyToResult_of_length _ hput]
  exact ⟨hput, rfl⟩

/-- Witness for identifier_layout at a concrete mixer, engine and source. -/
theorem identifier_layout_witness :
    (∀ l, (M0 l).length = 16) ∧ (mkSectionReader [1, 2, 3]).size < 2 ^ 63 ∧
    (((hashCore M0 New (mkSectionReader [1, 2, 3])).2).length = 16 ∧
     (hashCore M0 New (mkSectionReader [1, 2, 3])).2 =
       uvarint (mkSectionReader [1, 2, 3]).size ++
         (M0 ((hashCore M0 New (mkSectionReader [1, 2, 3])).1.writes.flatten)).drop
           (uvarint (mkSectionReader [1, 2, 3]).size).length) :=
  ⟨fun _ => rfl, by decide,
   identifier_layout M0 (fun _ => rfl) New (mkSectionReader [1, 2, 3]) (by decide)⟩

/-- C4: in one-shot mode the whole-content path (one write of all `S` bytes)
is taken exactly under `S < sampleThreshold ∨ sampleSize < 1`; otherwise the
sampling path makes exactly three writes.  In particular a source of size
exactly `sampleThreshold` fails the strict less-than and is sampled. -/
theorem whole_path_condition (M : List Nat → List Nat) (imo : ImoHash)
    (data : List Nat) :
    (((data.length : Int) < imo.sampleThreshold ∨ imo.sampleSize < 1) →
      (hashCore M imo (mkSectionReader data)).1.writes = [data]) ∧
    (¬((data.length : Int) < imo.sampleThreshold ∨ imo.sampleSize < 1) →
      (hashCore M imo (mkSectionReader data)).1.writes.length = 3) := by
  constructor
  · intro h
    rw [hashCore_whole_mk M imo data h]
  · intro h
    rw [hashCore_sample M imo (mkSectionReader data) (by simpa using h)]
    rfl

/-- Witness for whole_path_condition: a small buffer below the default
threshold is mixed whole; a buffer of size exactly the (custom) threshold is
sampled in three writes. -/
theorem whole_path_condition_witness :
    ((((List.length [1, 2] : Nat) : Int) < New.sampleThreshold ∨ New.sampleSize < 1) ∧
      (hashCore M0 New (mkSectionReader [1, 2])).1.writes = [[1, 2]]) ∧
    (¬(((List.length [5, 6, 7, 8] : Nat) : Int) < (NewCustom 2 4).sampleThreshold ∨
        (NewCustom 2 4).sampleSize < 1) ∧
      (hashCore M0 (NewCustom 2 4) (mkSectionReader [5, 6, 7, 8])).1.writes.length = 3) :=
  ⟨⟨by decide, (whole_path_condition M0 New [1, 2]).1 (by decide)⟩,
   ⟨by decide, (whole_path_condition M0 (NewCustom 2 4) [5, 6, 7, 8]).2 (by decide)⟩⟩

/-- C6: one-shot hashing is deterministic: rerunning `hashCore` on the same
source with the engine state left by the first run yields the same digest,
and more generally any two engines sharing a configuration (whatever their
hasher state and `bytesAdded`) produce identical digests. -/
theorem oneshot_deterministic (M : List Nat → List Nat) (imo : ImoHash)
    (data : List Nat) :
    (hashCore M imo (mkSectionReader data)).2 =
      (hashCore M ((hashCore M imo (mkSectionReader data)).1)
        (mkSectionReader data)).2 ∧
    ∀ imo' : ImoHash, imo'.sampleSize = imo.sampleSize →
      imo'.sampleThreshold = imo.sampleThreshold →
      (hashCore M imo (mkSectionReader data)).2 =
        (hashCore M imo' (mkSectionReader data)).2 := by
  have hcfg := hashCore_config_frame M imo (mkSectionReader data)
  constructor
  · exact (hashCore_congr M (mkSectionReader data) imo _
      hcfg.2.1.symm hcfg.2.2.symm).2
  · intro imo' hs ht
    exact (hashCore_congr M (mkSectionReader data) imo imo' hs.symm ht.symm).2

/-- Witness for oneshot_deterministic: an engine with leftover hasher state
and a nonzero byte count produces the same digest as a fresh one. -/
theorem oneshot_deterministic_witness :
    (⟨[[9]], SampleSize, SampleThreshhold, 7⟩ : ImoHash).sampleSize = New.sampleSize ∧
    (⟨[[9]], SampleSize, SampleThreshhold, 7⟩ : ImoHash).sampleThreshold =
      New.sampleThreshold ∧
    (hashCore M0 New (mkSectionReader [4, 5])).2 =
      (hashCore M0 (⟨[[9]], SampleSize, SampleThreshhold, 7⟩ : ImoHash)
        (mkSectionReader [4, 5])).2 :=
  ⟨rfl, rfl, (oneshot_deterministic M0 New [4, 5]).2 _ rfl rfl⟩

/-- C7: a configuration with `sampleSize < 1` disables sampling entirely:
the one-shot digest equals the identifier obtained by unconditional
whole-content mixing, for every buffer length and threshold. -/
theorem sampling_disabled_whole_mix (M : List Nat → List Nat) (imo : ImoHash)
    (data : List Nat) (h : imo.sampleSize < 1) :
    (hashCore M imo (mkSectionReader data)).2 = specWholeMixIdentifier M data := by
  rw [hashCore_whole_mk M imo data (Or.inr h)]
  rfl

/-- Witness for sampling_disabled_whole_mix with `sampleSize = 0` and a buffer
longer than the threshold (sampling would otherwise strike). -/
theorem sampling_disabled_whole_mix_witness :
    (NewCustom 0 5).sampleSize < 1 ∧
    (hashCore M0 (NewCustom 0 5) (mkSectionReader [1, 2, 3, 4, 5, 6])).2 =
      specWholeMixIdentifier M0 [1, 2, 3, 4, 5, 6] :=
  ⟨by decide,
   sampling_disabled_whole_mix M0 (NewCustom 0 5) [1, 2, 3, 4, 5, 6] (by decide)⟩

/-- C10: a one-shot computation (`hashCore`, hence the `SumFile` method in
every outcome) resets the mixing primitive but leaves `bytesAdded` unchanged
(and the configuration too); a subsequent incremental `Sum` therefore still
embeds the old count as its leading varint. -/
theorem oneshot_preserves_bytesAdded (M : List Nat → List Nat) (imo : ImoHash)
    (f : SectionReader) (o : OpenResult) :
    (hashCore M imo f).1.bytesAdded = imo.bytesAdded ∧
    (ImoHash.SumFile M imo o).1.bytesAdded = imo.bytesAdded ∧
    (ImoHash.Sum M ((hashCore M imo f).1) []).take
        (uvarint imo.bytesAdded).length = uvarint imo.bytesAdded := by
  have h1 := (hashCore_config_frame M imo f).1
  refine ⟨h1, ?_, ?_⟩
  · cases o with
    | openErr => rfl
    | statErr => rfl
    | opened r s => exact (hashCore_config_frame M imo ⟨r, s, 0⟩).1
  · show (([] : List Nat) ++
        putUvarintInto _ (hashCore M imo f).1.bytesAdded).take _ = _
    rw [h1, List.nil_append, putUvarintInto]
    exact List.take_left _ _

/-- C2 (amended): on the sampling path (`S ≥ sampleThreshold`,
`sampleSize ≥ 1`), *provided the middle window fits inside the source*
(`S / 2 + sampleSize ≤ S`, which the default configuration guarantees since
`sampleThreshold = 8 * sampleSize`), `hashCore` performs exactly three full
reads of `sampleSize` bytes and mixes them as three separate writes, in the
order `[0, sampleSize)`, `[S/2, S/2 + sampleSize)`, `[S - sampleSize, S)`.
Without the window-fit condition the reads can be short and the mixed buffers
keep stale bytes (see the counterexample). -/
theorem sampling_three_reads (M : List Nat → List Nat) (imo : ImoHash)
    (data : List Nat)
    (hth : imo.sampleThreshold ≤ (data.length : Int))
    (hss : 1 ≤ imo.sampleSize)
    (hfit : data.length / 2 + imo.sampleSize.toNat ≤ data.length) :
    (hashCore M imo (mkSectionReader data)).1.writes =
      [data.take imo.sampleSize.toNat,
       (data.drop (data.length / 2)).take imo.sampleSize.toNat,
       (data.drop (data.length - imo.sampleSize.toNat)).take imo.sampleSize.toNat] ∧
    ∀ w ∈ (hashCore M imo (mkSectionReader data)).1.writes,
      w.length = imo.sampleSize.toNat := by
  rw [hashCore_sample_mk M imo data hth hss hfit]
  refine ⟨rfl, ?_⟩
  intro w hw
  have hw' : w = data.take imo.sampleSize.toNat ∨
      w = (data.drop (data.length / 2)).take imo.sampleSize.toNat ∨
      w = (data.drop (data.length - imo.sampleSize.toNat)).take imo.sampleSize.toNat := by
    simpa using hw
  rcases hw' with h | h | h <;> subst h <;>
    simp only [List.length_take, List.length_drop] <;> omega

/-- Witness for sampling_three_reads: `sampleSize 2`, `threshold 4`, a
5-byte buffer — the mixed writes are exactly the three 2-byte windows. -/
theorem sampling_three_reads_witness :
    (NewCustom 2 4).sampleThreshold ≤ ((List.length [1, 2, 3, 4, 5] : Nat) : Int) ∧
    1 ≤ (NewCustom 2 4).sampleSize ∧
    List.length [1, 2, 3, 4, 5] / 2 + (NewCustom 2 4).sampleSize.toNat ≤
      List.length [1, 2, 3, 4, 5] ∧
    ((hashCore M0 (NewCustom 2 4) (mkSectionReader [1, 2, 3, 4, 5])).1.writes =
       [[1, 2], [3, 4], [4, 5]] ∧
     ∀ w ∈ (hashCore M0 (NewCustom 2 4) (mkSectionReader [1, 2, 3, 4, 5])).1.writes,
       w.length = (NewCustom 2 4).sampleSize.toNat) :=
  ⟨by decide, by decide, by decide, by
    have h := sampling_three_reads M0 (NewCustom 2 4) [1, 2, 3, 4, 5]
      (by decide) (by decide) (by decide)
    exact ⟨by rw [h.1]; decide, h.2⟩⟩

/-- C2 counterexample: the claim quantifies over every source with
`S ≥ sampleThreshold` and `sampleSize ≥ 1`, but with the custom configuration
`sampleSize 4, threshold 2` and the 3-byte source `[10, 20, 30]` the three
mixed writes are `[[10,20,30,0], [20,30,30,0], [20,30,30,0]]` — short reads
leave zero padding and stale bytes in the reused buffer, and the failed
end-relative seek leaves the offset at EOF — not the claimed source windows
`[0,4)`, `[S/2, S/2+4)`, `[S-4, S)` (clipped to the source below). -/
theorem sampling_three_reads_cex :
    (hashCore M0 (NewCustom 4 2) (mkSectionReader [10, 20, 30])).1.writes ≠
      [List.take 4 [10, 20, 30],
       List.take 4 (List.drop (List.length [10, 20, 30] / 2) [10, 20, 30]),
       List.take 4 (List.drop (List.length [10, 20, 30] - 4) [10, 20, 30])] := by
  decide

/-- C5: the sampling blind spot.  Two equally long buffers at or above the
default threshold that agree on the three sampled windows (first 16384 bytes,
16384 bytes from the midpoint, last 16384 bytes) — in particular ones that
differ only strictly between those windows — have identical one-shot
identifiers. -/
theorem sampling_blind_spot (M : List Nat → List Nat) (B B' : List Nat)
    (hlen : B.length = B'.length) (hbig : 131072 ≤ B.length)
    (h1 : B.take 16384 = B'.take 16384)
    (h2 : (B.drop (B.length / 2)).take 16384 = (B'.drop (B'.length / 2)).take 16384)
    (h3 : (B.drop (B.length - 16384)).take 16384 =
      (B'.drop (B'.length - 16384)).take 16384) :
    Sum128 M B = Sum128 M B' := by
  have hssN : New.sampleSize.toNat = 16384 := rfl
  have hthN : New.sampleThreshold = (131072 : Int) := rfl
  have hthB : New.sampleThreshold ≤ (B.length : Int) := by rw [hthN]; omega
  have hthB' : New.sampleThreshold ≤ (B'.length : Int) := by rw [hthN]; omega
  have hfitB : B.length / 2 + New.sampleSize.toNat ≤ B.length := by
    rw [hssN]; omega
  have hfitB' : B'.length / 2 + New.sampleSize.toNat ≤ B'.length := by
    rw [hssN]; omega
  simp only [Sum128]
  rw [hashCore_sample_mk M New B hthB (by decide) hfitB,
    hashCore_sample_mk M New B' hthB' (by decide) hfitB']
  simp only [hssN]
  rw [h1, h2, h3, hlen]

/-- A 131072-byte buffer that is all zeroes except for the byte `x` at
position 30000 — strictly between the first sampled window `[0, 16384)` and
the middle one `[65536, 81920)`.  Its length is the default threshold. -/
theorem sandwich_length (x : Nat) :
    (List.replicate 30000 (0 : Nat) ++ [x] ++ List.replicate 101071 0).length =
      131072 := by
  rw [List.length_append, List.length_append, List.length_replicate,
    List.length_replicate, List.length_singleton]

/-- The first sampled window of the sandwich buffer is all zeroes, whatever
`x` is. -/
theorem sandwich_take_front (x : Nat) :
    (List.replicate 30000 (0 : Nat) ++ [x] ++ List.replicate 101071 0).take 16384 =
      List.replicate 16384 0 := by
  rw [List.take_append_of_le_length
      (by rw [List.length_append, List.length_replicate, List.length_singleton]; norm_num),
    List.take_append_of_le_length (by rw [List.length_replicate]; norm_num),
    List.take_replicate, Nat.min_eq_left (by norm_num)]

/-- The middle sampled window of the sandwich buffer is all zeroes, whatever
`x` is. -/
theorem sandwich_take_mid (x : Nat) :
    ((List.replicate 30000 (0 : Nat) ++ [x] ++ List.replicate 101071 0).drop
        ((List.replicate 30000 (0 : Nat) ++ [x] ++
          List.replicate 101071 0).length / 2)).take 16384 =
      List.replicate 16384 0 := by
  rw [sandwich_length, (by norm_num : (131072 : Nat) / 2 = 65536),
    List.drop_append_eq_append_drop, List.drop_append_eq_append_drop,
    List.drop_replicate, List.length_replicate,
    List.length_append, List.length_replicate, List.length_singleton,
    (by norm_num : (30000 : Nat) - 65536 = 0), List.replicate_zero,
    (by norm_num : (65536 : Nat) - 30000 = 35536),
    List.drop_eq_nil_of_le
      (show ([x] : List Nat).length ≤ 35536 by rw [List.length_singleton]; norm_num),
    (by norm_num : (65536 : Nat) - (30000 + 1) = 35535),
    List.drop_replicate, (by norm_num : (101071 : Nat) - 35535 = 65536),
    List.append_nil, List.nil_append,
    List.take_replicate, Nat.min_eq_left (by norm_num)]

/-- The last sampled window of the sandwich buffer is all zeroes, whatever
`x` is. -/
theorem sandwich_take_last (x : Nat) :
    ((List.replicate 30000 (0 : Nat) ++ [x] ++ List.replicate 101071 0).drop
        ((List.replicate 30000 (0 : Nat) ++ [x] ++
          List.replicate 101071 0).length - 16384)).take 16384 =
      List.replicate 16384 0 := by
  rw [sandwich_length, (by norm_num : (131072 : Nat) - 16384 = 114688),
    List.drop_append_eq_append_drop, List.drop_append_eq_append_drop,
    List.drop_replicate, List.length_replicate,
    List.length_append, List.length_replicate, List.length_singleton,
    (by norm_num : (30000 : Nat) - 114688 = 0), List.replicate_zero,
    (by norm_num : (114688 : Nat) - 30000 = 84688),
    List.drop_eq_nil_of_le
      (show ([x] : List Nat).length ≤ 84688 by rw [List.length_singleton]; norm_num),
    (by norm_num : (114688 : Nat) - (30000 + 1) = 84687),
    List.drop_replicate, (by norm_num : (101071 : Nat) - 84687 = 16384),
    List.append_nil, List.nil_append,
    List.take_replicate, Nat.min_self]

/-- Witness for sampling_blind_spot: two 131072-byte buffers that differ at
exactly position 30000 — strictly between the sampled windows — hash to the
same one-shot identifier. -/
theorem sampling_blind_spot_witness :
    (List.replicate 30000 (0 : Nat) ++ [5] ++ List.replicate 101071 0).length =
      (List.replicate 30000 (0 : Nat) ++ [6] ++ List.replicate 101071 0).length ∧
    131072 ≤ (List.replicate 30000 (0 : Nat) ++ [5] ++ List.replicate 101071 0).length ∧
    (List.replicate 30000 (0 : Nat) ++ [5] ++ List.replicate 101071 0).take 16384 =
      (List.replicate 30000 (0 : Nat) ++ [6] ++ List.replicate 101071 0).take 16384 ∧
    ((List.replicate 30000 (0 : Nat) ++ [5] ++ List.replicate 101071 0).drop
        ((List.replicate 30000 (0 : Nat) ++ [5] ++
          List.replicate 101071 0).length / 2)).take 16384 =
      ((List.replicate 30000 (0 : Nat) ++ [6] ++ List.replicate 101071 0).drop
        ((List.replicate 30000 (0 : Nat) ++ [6] ++
          List.replicate 101071 0).length / 2)).take 16384 ∧
    ((List.replicate 30000 (0 : Nat) ++ [5] ++ List.replicate 101071 0).drop
        ((List.replicate 30000 (0 : Nat) ++ [5] ++
          List.replicate 101071 0).length - 16384)).take 16384 =
      ((List.replicate 30000 (0 : Nat) ++ [6] ++ List.replicate 101071 0).drop
        ((List.replicate 30000 (0 : Nat) ++ [6] ++
          List.replicate 101071 0).length - 16384)).take 16384 ∧
    Sum128 M0 (List.replicate 30000 (0 : Nat) ++ [5] ++ List.replicate 101071 0) =
      Sum128 M0 (List.replicate 30000 (0 : Nat) ++ [6] ++ List.replicate 101071 0) :=
  ⟨(sandwich_length 5).trans (sandwich_length 6).symm,
   by rw [sandwich_length],
   (sandwich_take_front 5).trans (sandwich_take_front 6).symm,
   (sandwich_take_mid 5).trans (sandwich_take_mid 6).symm,
   (sandwich_take_last 5).trans (sandwich_take_last 6).symm,
   sampling_blind_spot M0 _ _
     ((sandwich_length 5).trans (sandwich_length 6).symm)
     (by rw [sandwich_length])
     ((sandwich_take_front 5).trans (sandwich_take_front 6).symm)
     ((sandwich_take_mid 5).trans (sandwich_take_mid 6).symm)
     ((sandwich_take_last 5).trans (sandwich_take_last 6).symm)⟩

/-- C8: incremental `Sum` returns the caller's prefix with the 16-byte
identifier appended, and — the engine being untouched (`Sum` consumes no
state, mirroring that murmur's `Sum` and the field reads mutate nothing) —
any number of calls with no intervening write or reset yields the same
16-byte suffix, whatever prefixes are supplied. -/
theorem sum_appends_identifier (M : List Nat → List Nat)
    (hM : ∀ l, (M l).length = 16) (imo : ImoHash)
    (hb : imo.bytesAdded < 2 ^ 63) (data data' : List Nat) :
    ImoHash.Sum M imo data = data ++ ImoHash.Sum M imo [] ∧
    (ImoHash.Sum M imo []).length = 16 ∧
    (ImoHash.Sum M imo data).drop data.length =
      (ImoHash.Sum M imo data').drop data'.length := by
  have hle : (uvarint imo.bytesAdded).length ≤ (M imo.writes.flatten).length := by
    rw [hM]
    have := uvarint_length_le imo.bytesAdded
    omega
  have hlen16 := putUvarintInto_length _ imo.bytesAdded hle
  rw [hM] at hlen16
  refine ⟨by simp [ImoHash.Sum], by simpa [ImoHash.Sum] using hlen16, ?_⟩
  show (data ++ _).drop data.length = (data' ++ _).drop data'.length
  rw [List.drop_left, List.drop_left]

/-- Witness for sum_appends_identifier on an engine with pending writes and a
nonzero count, with two different prefixes. -/
theorem sum_appends_identifier_witness :
    (∀ l, (M0 l).length = 16) ∧
    (⟨[[1, 2]], SampleSize, SampleThreshhold, 5⟩ : ImoHash).bytesAdded < 2 ^ 63 ∧
    (ImoHash.Sum M0 (⟨[[1, 2]], SampleSize, SampleThreshhold, 5⟩ : ImoHash) [9] =
       [9] ++ ImoHash.Sum M0 (⟨[[1, 2]], SampleSize, SampleThreshhold, 5⟩ : ImoHash) [] ∧
     (ImoHash.Sum M0 (⟨[[1, 2]], SampleSize, SampleThreshhold, 5⟩ : ImoHash) []).length = 16 ∧
     (ImoHash.Sum M0 (⟨[[1, 2]], SampleSize, SampleThreshhold, 5⟩ : ImoHash) [9]).drop
         (List.length [9]) =
       (ImoHash.Sum M0 (⟨[[1, 2]], SampleSize, SampleThreshhold, 5⟩ : ImoHash)
           [7, 8]).drop (List.length [7, 8])) :=
  ⟨fun _ => rfl, by decide,
   sum_appends_identifier M0 (fun _ => rfl)
     (⟨[[1, 2]], SampleSize, SampleThreshhold, 5⟩ : ImoHash) (by decide) [9] [7, 8]⟩

/-- C9: for a buffer below `SampleThreshhold`, writing it once to a freshly
reset engine (a fresh default engine is `ImoHash.Reset` of any engine with the
default configuration — `Write`/`Sum` never consult the configuration) and
calling `Sum(nil)` yields exactly the bytes of the one-shot `Sum128`: both
mix the whole buffer and embed its length as the leading varint. -/
theorem incremental_matches_oneshot (M : List Nat → List Nat)
    (hM : ∀ l, (M l).length = 16) (imo : ImoHash) (data : List Nat)
    (h : (data.length : Int) < SampleThreshhold) :
    ImoHash.Sum M ((ImoHash.Write (ImoHash.Reset imo) data).1) [] = Sum128 M data := by
  have hle : (uvarint data.length).length ≤ (M data).length := by
    rw [hM]
    have := uvarint_length_le data.length
    omega
  have hput := putUvarintInto_length _ data.length hle
  rw [hM] at hput
  have hrhs : Sum128 M data = putUvarintInto (M data) data.length := by
    simp only [Sum128]
    rw [hashCore_whole_mk M New data (Or.inl h)]
    exact copyToResult_of_length _ hput
  rw [hrhs]
  simp [ImoHash.Sum, ImoHash.Write, ImoHash.Reset]

/-- Witness for incremental_matches_oneshot: a 3-byte buffer written to a
reset engine (with a non-default configuration and leftover state, which
`Reset`, `Write` and `Sum` ignore) hashes like `Sum128`. -/
theorem incremental_matches_oneshot_witness :
    (∀ l, (M0 l).length = 16) ∧
    ((List.length [4, 5, 6] : Nat) : Int) < SampleThreshhold ∧
    ImoHash.Sum M0
        ((ImoHash.Write (ImoHash.Reset (⟨[[9]], 7, -3, 11⟩ : ImoHash)) [4, 5, 6]).1) [] =
      Sum128 M0 [4, 5, 6] :=
  ⟨fun _ => rfl, by decide,
   incremental_matches_oneshot M0 (fun _ => rfl) (⟨[[9]], 7, -3, 11⟩ : ImoHash)
     [4, 5, 6] (by decide)⟩

end Imohash
